import Mathlib

set_option maxRecDepth 1000000
set_option allowUnsafeReducibility true
attribute [semireducible] Rat.add Rat.mul Rat.sub Rat.inv

/-!
Verification of the EMA bullish-alignment monitor (okx_dex_alert).

This file shallowly embeds the algorithmic core of the repository:
the EMA calculator `calculateEMA`, the candle-cache operations
`initializeKlineCache` / `updateTokenKlineCache`, the signal detector
`checkBullishSignal` with its status cache and `cleanupEMAStatusCache`,
the fetch normalization inside `getKlineData`, and the per-cycle
orchestrator `runScheduledAnalysis`.  Closing prices are modelled as
rationals; candle timestamps as naturals.  Each definition is a direct
translation of the corresponding function in
`bsc_active_tokens_analyzer.js` (imperative loops become `scanl`/folds,
the JS `Map` keyed by `addr_ts_prev` becomes a per-instrument
association list keyed by timestamp, thrown-and-caught exceptions become
`Except`/`Option` values).
-/

/-- A candle as built in `getKlineData` (the JS field `open` is a Lean
keyword, hence `openPrice`). -/
structure Candle where
  timestamp : ℕ
  openPrice : ℚ
  high : ℚ
  low : ℚ
  close : ℚ
  volume : ℚ
  volumeUsd : ℚ
deriving DecidableEq, Repr

def defaultCandle : Candle := ⟨0, 0, 0, 0, 0, 0, 0⟩

/-- One iteration of the EMA loop body in `calculateEMA`
(`bsc_active_tokens_analyzer.js:343`):
`ema[i] = prices[i] * multiplier + ema[i-1] * (1 - multiplier)`. -/
def emaStep (multiplier e px : ℚ) : ℚ :=
  px * multiplier + e * (1 - multiplier)

/-- `calculateEMA` from `bsc_active_tokens_analyzer.js:321-347`.
Returns `[]` when there are fewer prices than the period; otherwise an
array aligned with `prices`: `none` at indices `0..period-2`, the simple
moving average of the first `period` prices at index `period-1`, and the
EMA recurrence afterwards.  The JS `for` loop from `period` to
`prices.length - 1` is rendered as a `scanl` over `prices.drop period`
seeded with the SMA. -/
def calculateEMA (prices : List ℚ) (period : ℕ) : List (Option ℚ) :=
  if prices.length < period then []
  else
    List.replicate (period - 1) (none : Option ℚ) ++
      (((prices.drop period).scanl (emaStep (2 / ((period : ℚ) + 1)))
          ((prices.take period).sum / (period : ℚ))).map some)

/-- The divergent scalar EMA variant from `src/unnamed/part_000:118-129`:
seeded with `prices[0]`, folded over the remaining prices, `null` when
there are fewer prices than the period. -/
def calculateEMA_v0 (prices : List ℚ) (period : ℕ) : Option ℚ :=
  if prices.length < period then none
  else
    match prices with
    | [] => none
    | p0 :: rest =>
        some (rest.foldl (fun ema px => emaStep (2 / ((period : ℚ) + 1)) ema px) p0)

/-- The EMA series entry at index `i`, exactly as the JS code reads
`ema[latestIndex]` (out-of-range and not-yet-available entries both read
as `null`). -/
def emaAt (prices : List ℚ) (period i : ℕ) : Option ℚ :=
  (calculateEMA prices period).getD i none

/-- The scanl part of `calculateEMA`: the ema values from index
`period - 1` on. -/
def emaTail (prices : List ℚ) (period : ℕ) : List ℚ :=
  (prices.drop period).scanl (emaStep (2 / ((period : ℚ) + 1)))
    ((prices.take period).sum / (period : ℚ))

lemma calculateEMA_eq (prices : List ℚ) (period : ℕ) (hn : period ≤ prices.length) :
    calculateEMA prices period =
      List.replicate (period - 1) (none : Option ℚ) ++ (emaTail prices period).map some := by
  rw [calculateEMA, if_neg (Nat.not_lt.2 hn)]
  rfl

lemma length_emaTail (prices : List ℚ) (period : ℕ) :
    (emaTail prices period).length = (prices.length - period) + 1 := by
  rw [emaTail, List.length_scanl, List.length_drop]

lemma emaAt_eq_emaTail (prices : List ℚ) (period : ℕ)
    (hn : period ≤ prices.length) (j : ℕ) (hj : j ≤ prices.length - period) :
    emaAt prices period (period - 1 + j) = some ((emaTail prices period).getD j 0) := by
  have hjlt : j < (emaTail prices period).length := by
    rw [length_emaTail]; omega
  rw [emaAt, calculateEMA_eq prices period hn,
    List.getD_append_right _ _ _ _ (by simp), List.length_replicate,
    Nat.add_sub_cancel_left,
    List.getD_eq_getElem _ _ (by simpa using hjlt), List.getElem_map,
    List.getD_eq_getElem _ _ hjlt]

lemma emaAt_replicate_part (prices : List ℚ) (period : ℕ)
    (hn : period ≤ prices.length) (i : ℕ) (hi : i + 1 < period) :
    emaAt prices period i = none := by
  have hi' : i < (List.replicate (period - 1) (none : Option ℚ)).length := by
    rw [List.length_replicate]; omega
  rw [emaAt, calculateEMA_eq prices period hn, List.getD_append _ _ _ _ hi',
    List.getD_eq_getElem _ _ hi', List.getElem_replicate]

/-- C2: for every period `p ≥ 1` and closing-price sequence of length
`n ≥ p`, `calculateEMA` returns a sequence of length `n` whose entries at
indices `0..p-2` are undefined, whose entry at index `p-1` is the
arithmetic mean of the first `p` prices, and whose entry at every
subsequent index `i` satisfies
`ema[i] = close[i] * (2/(p+1)) + ema[i-1] * (1 - 2/(p+1))`.
(The result depends only on `prices` and `period` because
`calculateEMA` is a pure function of these two arguments.) -/
theorem calculateEMA_series_spec (prices : List ℚ) (period : ℕ)
    (hp : 1 ≤ period) (hn : period ≤ prices.length) :
    (calculateEMA prices period).length = prices.length ∧
    (∀ i, i + 1 < period → emaAt prices period i = none) ∧
    emaAt prices period (period - 1) = some ((prices.take period).sum / (period : ℚ)) ∧
    (∀ i, period ≤ i → i < prices.length →
      ∃ e, emaAt prices period (i - 1) = some e ∧
        emaAt prices period i =
          some (prices.getD i 0 * (2 / ((period : ℚ) + 1)) +
            e * (1 - 2 / ((period : ℚ) + 1)))) := by
  refine ⟨?_, fun i hi => emaAt_replicate_part prices period hn i hi, ?_, ?_⟩
  · rw [calculateEMA_eq prices period hn, List.length_append, List.length_replicate,
      List.length_map, length_emaTail]
    omega
  · have h0 := emaAt_eq_emaTail prices period hn 0 (Nat.zero_le _)
    rw [Nat.add_zero] at h0
    rw [h0]
    have hlen : 0 < (emaTail prices period).length := by rw [length_emaTail]; omega
    rw [List.getD_eq_getElem _ _ hlen]
    simp only [emaTail, List.getElem_scanl_zero]
  · intro i hpi hin
    have hj1 : i - 1 = period - 1 + (i - period) := by omega
    have hj2 : i = period - 1 + ((i - period) + 1) := by omega
    have hb1 : i - period ≤ prices.length - period := by omega
    have hb2 : (i - period) + 1 ≤ prices.length - period := by omega
    have h1' := emaAt_eq_emaTail prices period hn (i - period) hb1
    rw [← hj1] at h1'
    have h2' := emaAt_eq_emaTail prices period hn ((i - period) + 1) hb2
    rw [← hj2] at h2'
    refine ⟨(emaTail prices period).getD (i - period) 0, h1', ?_⟩
    rw [h2']
    have hlt : (i - period) + 1 < (emaTail prices period).length := by
      rw [length_emaTail]; omega
    have hlt2 : i - period < (emaTail prices period).length := Nat.lt_of_succ_lt hlt
    have hlt' : i - period < (prices.drop period).length := by
      rw [List.length_drop]; omega
    have hdrop : (prices.drop period)[i - period] = prices.getD i 0 := by
      rw [List.getElem_drop]
      have hpj : period + (i - period) < prices.length := by omega
      rw [← List.getD_eq_getElem prices 0 hpj]
      congr 1
      omega
    rw [List.getD_eq_getElem _ _ hlt, List.getD_eq_getElem _ _ hlt2]
    simp only [emaTail] at hlt hlt2 ⊢
    rw [List.getElem_succ_scanl, emaStep, hdrop]

/-- Witness for C2 at `prices = [1, 2, 3]`, `period = 2`. -/
theorem calculateEMA_series_spec_witness :
    (calculateEMA [1, 2, 3] 2).length = 3 := by
  exact (calculateEMA_series_spec [1, 2, 3] 2 (by decide) (by decide)).1

/-- C9: for every period `p ≥ 1` and price sequence of length `n ≥ p`,
every entry of the EMA series at index `p-1` and above is a defined
value (never `null`). -/
theorem calculateEMA_defined_spec (prices : List ℚ) (period i : ℕ)
    (hp : 1 ≤ period) (hn : period ≤ prices.length)
    (h1 : period - 1 ≤ i) (h2 : i < prices.length) :
    (emaAt prices period i).isSome := by
  have hj : i - (period - 1) ≤ prices.length - period := by omega
  have := emaAt_eq_emaTail prices period hn (i - (period - 1)) hj
  rw [show period - 1 + (i - (period - 1)) = i by omega] at this
  rw [this]
  rfl

/-- Witness for C9 at `prices = [1, 2, 3]`, `period = 2`, `i = 1`. -/
theorem calculateEMA_defined_spec_witness :
    (emaAt [1, 2, 3] 2 1).isSome := by
  exact calculateEMA_defined_spec [1, 2, 3] 2 1 (by decide) (by decide) (by decide) (by decide)

/-- C5: for every period and every price sequence shorter than the
period, the array-valued `calculateEMA` returns the empty sequence, the
scalar variant `calculateEMA_v0` returns `none`, and every index of the
EMA series reads as undefined — insufficient data is a defined
\"not ready\" output, not an error. -/
theorem calculateEMA_insufficient_spec (prices : List ℚ) (period : ℕ)
    (h : prices.length < period) :
    calculateEMA prices period = [] ∧
    calculateEMA_v0 prices period = none ∧
    ∀ i, emaAt prices period i = none := by
  refine ⟨?_, ?_, ?_⟩
  · rw [calculateEMA, if_pos h]
  · rw [calculateEMA_v0.eq_def, if_pos h]
  · intro i
    rw [emaAt, calculateEMA, if_pos h]
    rfl

/-- Witness for C5 at `prices = [1]`, `period = 2`. -/
theorem calculateEMA_insufficient_spec_witness :
    calculateEMA [1] 2 = [] ∧ calculateEMA_v0 [1] 2 = none := by
  have h := calculateEMA_insufficient_spec [1] 2 (by decide)
  exact ⟨h.1, h.2.1⟩

/-- The pure core of `updateTokenKlineCache`
(`bsc_active_tokens_analyzer.js:282-317`): given the freshly fetched
kline list (the code fetches one candle) and the cached window, return
the updated window, or `none` for every "no update" outcome (empty
fetch, empty/missing cache entry, stale timestamp).  On success the
oldest candle (`slice(1)`) is evicted and the new candle appended. -/
def updateTokenKlineCache (latestKline cachedKlines : List Candle) : Option (List Candle) :=
  match latestKline with
  | [] => none
  | newCandle :: _ =>
    if cachedKlines.length = 0 then none
    else
      if newCandle.timestamp ≤ (cachedKlines.getD (cachedKlines.length - 1) defaultCandle).timestamp
      then none
      else some (cachedKlines.drop 1 ++ [newCandle])

/-- The cache-storing decision of `initializeKlineCache`
(`bsc_active_tokens_analyzer.js:215-229`) for one instrument: the
fetched kline list is stored in full when it has at least 144 candles
(`klineCache.set(token.address, klineData)`), otherwise no cache entry
is created. -/
def initializeKlineCache (klineData : List Candle) : Option (List Candle) :=
  if 144 ≤ klineData.length then some klineData else none

/-- C3: with a cached window of `W ≥ 1` candles, an update whose candle
has timestamp `≤` the newest cached timestamp is a no-op (`none`, not an
error); an update with a strictly greater timestamp drops exactly the
single oldest candle and appends the new one, so the length stays `W`
and the newest element is the appended candle. -/
theorem updateTokenKlineCache_spec (cached : List Candle) (c : Candle) (W : ℕ)
    (hW : cached.length = W) (hpos : 1 ≤ W) :
    (c.timestamp ≤ (cached.getD (W - 1) defaultCandle).timestamp →
      updateTokenKlineCache [c] cached = none) ∧
    ((cached.getD (W - 1) defaultCandle).timestamp < c.timestamp →
      updateTokenKlineCache [c] cached = some (cached.drop 1 ++ [c]) ∧
      (cached.drop 1 ++ [c]).length = W ∧
      (cached.drop 1 ++ [c]).getLast? = some c) := by
  have hne : ¬ cached.length = 0 := by omega
  constructor
  · intro hle
    rw [updateTokenKlineCache, if_neg hne, if_pos (by rw [hW]; exact hle)]
  · intro hgt
    refine ⟨?_, ?_, ?_⟩
    · rw [updateTokenKlineCache, if_neg hne, if_neg (by rw [hW]; omega)]
    · rw [List.length_append, List.length_drop]
      simp only [List.length_singleton]
      omega
    · rw [List.getLast?_append]
      rfl

/-- Witness for C3: a one-candle cache updated with a strictly newer
candle. -/
theorem updateTokenKlineCache_spec_witness :
    updateTokenKlineCache [⟨1, 1, 1, 1, 1, 0, 0⟩] [⟨0, 1, 1, 1, 1, 0, 0⟩] =
      some ([(⟨0, 1, 1, 1, 1, 0, 0⟩ : Candle)].drop 1 ++ [⟨1, 1, 1, 1, 1, 0, 0⟩]) := by
  exact ((updateTokenKlineCache_spec [⟨0, 1, 1, 1, 1, 0, 0⟩] ⟨1, 1, 1, 1, 1, 0, 0⟩ 1
    rfl (by decide)).2 (by decide)).1

/-- A chronologically ascending list of 145 distinct candles. -/
def asc145 : List Candle := (List.range 145).map (fun i => ⟨i, 1, 1, 1, 1, 0, 0⟩)

/-- Counterexample for C4: initialized with 145 ascending candles
(`W = 144`, `k = 1`), the code stores the whole 145-candle list — it
does not discard the one excess older candle, so the stored window is
not the newest 144 candles (`asc145.drop 1`). -/
theorem initializeKlineCache_keeps_excess :
    (asc145.map Candle.timestamp).Pairwise (· < ·) ∧
    asc145.length = 145 ∧
    initializeKlineCache asc145 = some asc145 ∧
    initializeKlineCache asc145 ≠ some (asc145.drop 1) := by
  refine ⟨?_, by decide, by decide, by decide⟩
  have : asc145.map Candle.timestamp = List.range 145 := by
    rw [asc145, List.map_map]
    rfl
  rw [this]
  exact List.pairwise_lt_range 145

/-- C4 (amended): initialization with an ascending candle list of
length at least `W = 144` stores the entire supplied list (nothing is
discarded); with fewer than `W` candles it creates no cache entry and
raises no exception. -/
theorem initializeKlineCache_spec_amended (klineData : List Candle) :
    (144 ≤ klineData.length → initializeKlineCache klineData = some klineData) ∧
    (klineData.length < 144 → initializeKlineCache klineData = none) := by
  constructor
  · intro h
    rw [initializeKlineCache, if_pos h]
  · intro h
    rw [initializeKlineCache, if_neg (by omega)]

/-- Witness for the amended C4: a too-short list creates no entry. -/
theorem initializeKlineCache_spec_amended_witness :
    initializeKlineCache [] = none := by
  exact (initializeKlineCache_spec_amended []).2 (by decide)

/-- The record built by `calculateEMAStatus`
(`bsc_active_tokens_analyzer.js:269-276`). -/
structure EMAStatus where
  bullish : Bool
  ema21 : ℚ
  ema55 : ℚ
  ema144 : ℚ
  timestamp : ℕ
  price : ℚ
deriving DecidableEq, Repr

/-- `calculateEMAStatus` (`bsc_active_tokens_analyzer.js:242-277`):
`null` when fewer than 144 candles or when any of the three EMAs is
still undefined at the latest index; otherwise the bullish flag
`ema21 > ema55 && ema55 > ema144` together with the latest candle's
EMA values, timestamp and closing price. -/
def calculateEMAStatus (klineData : List Candle) : Option EMAStatus :=
  if klineData.length < 144 then none
  else
    match emaAt (klineData.map Candle.close) 21 (klineData.length - 1),
          emaAt (klineData.map Candle.close) 55 (klineData.length - 1),
          emaAt (klineData.map Candle.close) 144 (klineData.length - 1) with
    | some e21, some e55, some e144 =>
        some { bullish := decide (e55 < e21) && decide (e144 < e55),
               ema21 := e21, ema55 := e55, ema144 := e144,
               timestamp := (klineData.getD (klineData.length - 1) defaultCandle).timestamp,
               price := (klineData.map Candle.close).getD (klineData.length - 1) 0 }
    | _, _, _ => none

/-- The per-instrument view of the JS `emaStatusCache` `Map`: keys
`addr_timestamp_prev` for one fixed address become the timestamp; the
association list preserves insertion order, mirroring `Map` iteration
order. -/
abbrev EMAStatusCache := List (ℕ × Bool)

/-- `Map.get` on the status cache. -/
def cacheGet (cache : EMAStatusCache) (ts : ℕ) : Option Bool :=
  (cache.find? (fun p => p.1 == ts)).map Prod.snd

/-- `Map.set` on the status cache: overwrite an existing key in place,
otherwise append. -/
def cacheSet (cache : EMAStatusCache) (ts : ℕ) (b : Bool) : EMAStatusCache :=
  if cache.any (fun p => p.1 == ts) then
    cache.map (fun p => if p.1 == ts then (ts, b) else p)
  else cache ++ [(ts, b)]

/-- `cleanupEMAStatusCache` (`bsc_active_tokens_analyzer.js:732-746`):
sort this instrument's stored timestamps in descending order and, when
more than 10 are stored, delete every entry outside the 10 most
recent. -/
def cleanupEMAStatusCache (cache : EMAStatusCache) : EMAStatusCache :=
  if 10 < ((cache.map Prod.fst).insertionSort (· ≥ ·)).length then
    cache.filter
      (fun p => !((((cache.map Prod.fst).insertionSort (· ≥ ·)).drop 10).contains p.1))
  else cache

/-- The signal record returned by `checkBullishSignal`
(`bsc_active_tokens_analyzer.js:705-716`), restricted to the fields
computed by the detector itself (token metadata is fetched from the
network). -/
structure Signal where
  currentPrice : ℚ
  ema21 : ℚ
  ema55 : ℚ
  ema144 : ℚ
  klineTimestamp : ℕ
deriving DecidableEq, Repr

/-- `checkBullishSignal` (`bsc_active_tokens_analyzer.js:666-727`):
compute the current EMA status, look up the stored status keyed by the
previous candle's timestamp, unconditionally store the current status
keyed by the current candle's timestamp, fire a signal iff the previous
status is exactly `false` and the current alignment is `true`; the
status-cache cleanup runs only on the no-signal path (the signal branch
returns before the cleanup call). -/
def checkBullishSignal (cachedKlines : List Candle) (cache : EMAStatusCache) :
    Option Signal × EMAStatusCache :=
  if cachedKlines.length < 144 then (none, cache)
  else
    match calculateEMAStatus cachedKlines with
    | none => (none, cache)
    | some currentEMAStatus =>
        let prevTimestamp :=
          (cachedKlines.getD (cachedKlines.length - 2) defaultCandle).timestamp
        let prevBullishStatus := cacheGet cache prevTimestamp
        let cache1 := cacheSet cache currentEMAStatus.timestamp currentEMAStatus.bullish
        if prevBullishStatus = some false ∧ currentEMAStatus.bullish = true then
          (some ⟨currentEMAStatus.price, currentEMAStatus.ema21, currentEMAStatus.ema55,
                 currentEMAStatus.ema144, currentEMAStatus.timestamp⟩, cache1)
        else (none, cleanupEMAStatusCache cache1)

lemma calculateEMAStatus_length {w : List Candle} {cur : EMAStatus}
    (h : calculateEMAStatus w = some cur) : 144 ≤ w.length := by
  by_contra hlt
  rw [calculateEMAStatus, if_pos (by omega)] at h
  simp at h

lemma calculateEMAStatus_timestamp {w : List Candle} {cur : EMAStatus}
    (h : calculateEMAStatus w = some cur) :
    cur.timestamp = (w.getD (w.length - 1) defaultCandle).timestamp := by
  rw [calculateEMAStatus.eq_def] at h
  split at h
  · simp at h
  · split at h <;> first
      | (injection h with h'; subst h'; rfl)
      | simp at h

/-- Reduce one detector step once the current EMA status is known. -/
lemma checkBullishSignal_eq (window : List Candle) (cache : EMAStatusCache)
    (cur : EMAStatus) (hcur : calculateEMAStatus window = some cur) :
    checkBullishSignal window cache =
      if cacheGet cache (window.getD (window.length - 2) defaultCandle).timestamp = some false
          ∧ cur.bullish = true then
        (some ⟨cur.price, cur.ema21, cur.ema55, cur.ema144, cur.timestamp⟩,
          cacheSet cache cur.timestamp cur.bullish)
      else (none, cleanupEMAStatusCache (cacheSet cache cur.timestamp cur.bullish)) := by
  rw [checkBullishSignal, if_neg (Nat.not_lt.2 (calculateEMAStatus_length hcur)), hcur]

lemma cacheSet_fresh (cache : EMAStatusCache) (ts : ℕ) (b : Bool)
    (h : ∀ k ∈ cache.map Prod.fst, k ≠ ts) :
    cacheSet cache ts b = cache ++ [(ts, b)] := by
  rw [cacheSet, if_neg]
  simp only [List.any_eq_true, beq_iff_eq, not_exists, not_and]
  intro p hp
  exact h p.1 (List.mem_map.mpr ⟨p, hp, rfl⟩)

lemma cacheGet_append_fresh (cache : EMAStatusCache) (ts : ℕ) (b : Bool)
    (h : ∀ k ∈ cache.map Prod.fst, k ≠ ts) :
    cacheGet (cache ++ [(ts, b)]) ts = some b := by
  rw [cacheGet, List.find?_append]
  have hnone : cache.find? (fun p => p.1 == ts) = none := by
    rw [List.find?_eq_none]
    intro p hp
    simpa using h p.1 (List.mem_map.mpr ⟨p, hp, rfl⟩)
  rw [hnone]
  simp [List.find?]

lemma cacheGet_of_mem (cache : EMAStatusCache) (ts : ℕ) (b : Bool)
    (hnd : (cache.map Prod.fst).Nodup) (hm : (ts, b) ∈ cache) :
    cacheGet cache ts = some b := by
  induction cache with
  | nil => simp at hm
  | cons hd tl ih =>
    rw [List.map_cons, List.nodup_cons] at hnd
    rcases List.mem_cons.mp hm with heq | htl
    · rw [← heq, cacheGet]
      simp [List.find?]
    · have hne : ¬ (hd.1 == ts) = true := by
        simp only [beq_iff_eq]
        intro h
        exact hnd.1 (h ▸ List.mem_map.mpr ⟨(ts, b), htl, rfl⟩)
      rw [cacheGet, List.find?_cons_of_neg _ (by simpa using hne)]
      exact ih hnd.2 htl

lemma nodup_subset_length_le {l l' : List ℕ} (hnd : l.Nodup) (hsub : l ⊆ l') :
    l.length ≤ l'.length := by
  calc l.length = l.toFinset.card := (List.toFinset_card_of_nodup hnd).symm
    _ ≤ l'.toFinset.card := Finset.card_le_card (fun x hx =>
        List.mem_toFinset.mpr (hsub (List.mem_toFinset.mp hx)))
    _ ≤ l'.length := List.toFinset_card_le l'

lemma cleanup_length_le (cache : EMAStatusCache)
    (hnd : (cache.map Prod.fst).Nodup) :
    (cleanupEMAStatusCache cache).length ≤ 10 := by
  rw [cleanupEMAStatusCache]
  split
  · rename_i h
    have hndf : ((cache.filter
        (fun p => !((((cache.map Prod.fst).insertionSort (· ≥ ·)).drop 10).contains p.1))).map
          Prod.fst).Nodup :=
      List.Nodup.sublist (List.Sublist.map Prod.fst (List.filter_sublist cache)) hnd
    have hsub : (cache.filter
        (fun p => !((((cache.map Prod.fst).insertionSort (· ≥ ·)).drop 10).contains p.1))).map
          Prod.fst ⊆ ((cache.map Prod.fst).insertionSort (· ≥ ·)).take 10 := by
      intro x hx
      obtain ⟨p, hpF, rfl⟩ := List.mem_map.mp hx
      have hpc := List.mem_filter.mp hpF
      have hx_keys : p.1 ∈ (cache.map Prod.fst).insertionSort (· ≥ ·) :=
        (List.mem_insertionSort _).mpr (List.mem_map.mpr ⟨p, hpc.1, rfl⟩)
      have hnotdrop : p.1 ∉ ((cache.map Prod.fst).insertionSort (· ≥ ·)).drop 10 := by
        simpa using hpc.2
      have hsplit := (List.take_append_drop 10
        ((cache.map Prod.fst).insertionSort (· ≥ ·))) ▸ hx_keys
      rcases List.mem_append.mp hsplit with h1 | h2
      · exact h1
      · exact absurd h2 hnotdrop
    calc (cache.filter _).length = ((cache.filter _).map Prod.fst).length :=
          (List.length_map _ _).symm
      _ ≤ (((cache.map Prod.fst).insertionSort (· ≥ ·)).take 10).length :=
          nodup_subset_length_le hndf hsub
      _ ≤ 10 := by rw [List.length_take]; omega
  · rename_i h
    have hlen : ((cache.map Prod.fst).insertionSort (· ≥ ·)).length = cache.length := by
      rw [(List.perm_insertionSort _ _).length_eq, List.length_map]
    omega

lemma cacheGet_cleanup_max (cache : EMAStatusCache) (ts : ℕ) (b : Bool)
    (hnd : (cache.map Prod.fst).Nodup) (hm : (ts, b) ∈ cache)
    (hmax : ∀ k ∈ cache.map Prod.fst, k ≤ ts) :
    cacheGet (cleanupEMAStatusCache cache) ts = some b := by
  rw [cleanupEMAStatusCache]
  split
  · rename_i h
    have hsorted : List.Sorted (· ≥ ·) ((cache.map Prod.fst).insertionSort (· ≥ ·)) :=
      List.sorted_insertionSort _ _
    have hperm : List.Perm ((cache.map Prod.fst).insertionSort (· ≥ ·)) (cache.map Prod.fst) :=
      List.perm_insertionSort _ _
    have hts_mem : ts ∈ cache.map Prod.fst := List.mem_map.mpr ⟨(ts, b), hm, rfl⟩
    have hcount : (cache.map Prod.fst).count ts = 1 :=
      List.count_eq_one_of_mem hnd hts_mem
    have hcountk : ((cache.map Prod.fst).insertionSort (· ≥ ·)).count ts = 1 := by
      rw [hperm.count_eq]; exact hcount
    have hnotdrop : ts ∉ ((cache.map Prod.fst).insertionSort (· ≥ ·)).drop 10 := by
      intro hdrop
      cases hk : (cache.map Prod.fst).insertionSort (· ≥ ·) with
      | nil => rw [hk] at hdrop; simp at hdrop
      | cons k0 rest =>
        rw [hk] at hdrop hsorted hcountk hperm
        have hrest : ts ∈ rest := List.mem_of_mem_drop (by
          simpa [List.drop_succ_cons] using hdrop)
        have hge : k0 ≥ ts := (List.sorted_cons.mp hsorted).1 ts hrest
        have hle : k0 ≤ ts := hmax k0 (hperm.subset (List.mem_cons_self _ _))
        have hk0 : k0 = ts := le_antisymm hle hge
        rw [List.count_cons] at hcountk
        have hpos : 0 < rest.count ts := List.count_pos_iff.mpr hrest
        simp only [hk0, beq_self_eq_true, if_true] at hcountk
        omega
    have hkept : (ts, b) ∈ cache.filter
        (fun p => !((((cache.map Prod.fst).insertionSort (· ≥ ·)).drop 10).contains p.1)) := by
      refine List.mem_filter.mpr ⟨hm, ?_⟩
      simpa using hnotdrop
    have hndf : ((cache.filter
        (fun p => !((((cache.map Prod.fst).insertionSort (· ≥ ·)).drop 10).contains p.1))).map
          Prod.fst).Nodup :=
      List.Nodup.sublist (List.Sublist.map Prod.fst (List.filter_sublist cache)) hnd
    exact cacheGet_of_mem _ _ _ hndf hkept
  · exact cacheGet_of_mem _ _ _ hnd hm

lemma appended_window_prev (window : List Candle) (c' : Candle) (h : 2 ≤ window.length) :
    (window.drop 1 ++ [c']).getD ((window.drop 1 ++ [c']).length - 2) defaultCandle =
      window.getD (window.length - 1) defaultCandle := by
  have hlen2 : (window.drop 1 ++ [c']).length = window.length := by
    rw [List.length_append, List.length_drop]
    simp only [List.length_singleton]
    omega
  rw [hlen2]
  have hlt : window.length - 2 < (window.drop 1).length := by
    rw [List.length_drop]; omega
  rw [List.getD_append _ _ _ _ hlt, List.getD_eq_getElem _ _ hlt, List.getElem_drop]
  have h1 : 1 + (window.length - 2) < window.length := by omega
  rw [← List.getD_eq_getElem window defaultCandle h1]
  congr 1
  omega

/-- C1: for an instrument with a full window, a Signal is emitted iff
the stored previous alignment state (keyed by the previous candle's
timestamp) is explicitly `false` and the freshly computed alignment is
`true`; when the previous state is unknown (first-ever evaluation) no
Signal fires; after every evaluation the state keyed by the current
candle's timestamp holds the current alignment; and on the following
cycle (window shifted by one appended candle) no Signal fires when this
cycle already reported `true` — so two consecutive `true` cycles
produce exactly one Signal, on the transition cycle only.  The two
hypotheses on `cache` are the reachable-state invariants: stored keys
are pairwise-distinct past-candle timestamps, all strictly below the
current candle's timestamp. -/
theorem checkBullishSignal_transition_spec (window : List Candle) (cache : EMAStatusCache)
    (cur : EMAStatus) (hcur : calculateEMAStatus window = some cur)
    (hnd : (cache.map Prod.fst).Nodup)
    (hold : ∀ k ∈ cache.map Prod.fst, k < cur.timestamp) :
    ((checkBullishSignal window cache).1.isSome = true ↔
      (cacheGet cache ((window.getD (window.length - 2) defaultCandle).timestamp) = some false ∧
        cur.bullish = true)) ∧
    cacheGet (checkBullishSignal window cache).2 cur.timestamp = some cur.bullish ∧
    (cacheGet cache ((window.getD (window.length - 2) defaultCandle).timestamp) = none →
      (checkBullishSignal window cache).1 = none) ∧
    (∀ (c' : Candle) (cur' : EMAStatus), cur.bullish = true →
      calculateEMAStatus (window.drop 1 ++ [c']) = some cur' →
      (checkBullishSignal (window.drop 1 ++ [c'])
        (checkBullishSignal window cache).2).1 = none) := by
  have hlen := calculateEMAStatus_length hcur
  have hts := calculateEMAStatus_timestamp hcur
  have hstep := checkBullishSignal_eq window cache cur hcur
  have hfresh : ∀ k ∈ cache.map Prod.fst, k ≠ cur.timestamp :=
    fun k hk => Nat.ne_of_lt (hold k hk)
  have hset : cacheSet cache cur.timestamp cur.bullish =
      cache ++ [(cur.timestamp, cur.bullish)] :=
    cacheSet_fresh _ _ _ hfresh
  have hnd1 : ((cache ++ [(cur.timestamp, cur.bullish)]).map Prod.fst).Nodup := by
    rw [List.map_append, List.nodup_append]
    refine ⟨hnd, List.nodup_singleton _, ?_⟩
    intro k hk hk1
    simp only [List.map_cons, List.map_nil, List.mem_singleton] at hk1
    exact hfresh k hk hk1
  have hmem1 : (cur.timestamp, cur.bullish) ∈ cache ++ [(cur.timestamp, cur.bullish)] :=
    List.mem_append_right _ (List.mem_singleton_self _)
  have hmax1 : ∀ k ∈ (cache ++ [(cur.timestamp, cur.bullish)]).map Prod.fst,
      k ≤ cur.timestamp := by
    rw [List.map_append]
    intro k hk
    rcases List.mem_append.mp hk with h1 | h2
    · exact Nat.le_of_lt (hold k h1)
    · simp only [List.map_cons, List.map_nil, List.mem_singleton] at h2
      omega
  have hupd : cacheGet (checkBullishSignal window cache).2 cur.timestamp =
      some cur.bullish := by
    rw [hstep]
    by_cases hc : cacheGet cache
        ((window.getD (window.length - 2) defaultCandle).timestamp) = some false ∧
        cur.bullish = true
    · rw [if_pos hc, hset]
      exact cacheGet_append_fresh _ _ _ hfresh
    · rw [if_neg hc, hset]
      exact cacheGet_cleanup_max _ _ _ hnd1 hmem1 hmax1
  refine ⟨?_, hupd, ?_, ?_⟩
  · rw [hstep]
    by_cases hc : cacheGet cache
        ((window.getD (window.length - 2) defaultCandle).timestamp) = some false ∧
        cur.bullish = true
    · rw [if_pos hc]
      exact iff_of_true (by simp) hc
    · rw [if_neg hc]
      exact iff_of_false (by simp) hc
  · intro hnone
    have hc : ¬ (cacheGet cache
        ((window.getD (window.length - 2) defaultCandle).timestamp) = some false ∧
        cur.bullish = true) := by
      rw [hnone]
      simp
    rw [hstep, if_neg hc]
  · intro c' cur' hb hcur'
    have hstep2 := checkBullishSignal_eq (window.drop 1 ++ [c'])
      (checkBullishSignal window cache).2 cur' hcur'
    have hc2 : ¬ (cacheGet (checkBullishSignal window cache).2
        (((window.drop 1 ++ [c']).getD ((window.drop 1 ++ [c']).length - 2)
          defaultCandle).timestamp) = some false ∧ cur'.bullish = true) := by
      rw [appended_window_prev window c' (by omega), ← hts, hupd, hb]
      simp
    rw [hstep2, if_neg hc2]

/-- A full window of 144 candles with constant closing price `1`:
all EMAs equal `1`, alignment is `false`. -/
def constWindow144 : List Candle := (List.range 144).map (fun i => ⟨i, 1, 1, 1, 1, 0, 0⟩)

/-- Witness for C1: first-ever evaluation (empty status cache) on a
full constant window fires no signal. -/
theorem checkBullishSignal_transition_spec_witness :
    (checkBullishSignal constWindow144 []).1 = none := by
  exact (checkBullishSignal_transition_spec constWindow144 []
    ⟨false, 1, 1, 1, 143, 1⟩ (by decide) (by decide) (by decide)).2.2.1 (by decide)

/-- A window whose first 143 closes are `1` and whose last close is `2`:
at the last index EMA21 = 12/11 > EMA55 = 29/28 > EMA144 = 145/144, so
the current alignment is `true`. -/
def bullishWindow : List Candle :=
  (List.range 143).map (fun i => ⟨i, 1, 1, 1, 1, 0, 0⟩) ++ [⟨143, 2, 2, 2, 2, 0, 0⟩]

/-- Ten stored alignment states for one instrument, the newest keyed by
the previous candle's timestamp `142` with value `false`. -/
def tenStatuses : EMAStatusCache :=
  [(0, false), (1, false), (2, false), (3, false), (4, false),
   (5, false), (6, false), (7, false), (8, false), (142, false)]

/-- Counterexample for C6: on a detection cycle where the signal fires
(previous state `false`, current alignment `true`) the cleanup call is
skipped — a 10-entry history grows to 11 entries, exceeding the claimed
10-entry bound, and no pruning happens on that cycle. -/
theorem checkBullishSignal_history_eleven :
    tenStatuses.length = 10 ∧
    (checkBullishSignal bullishWindow tenStatuses).1.isSome = true ∧
    (checkBullishSignal bullishWindow tenStatuses).2.length = 11 := by
  refine ⟨by decide, by decide, by decide⟩

/-- C6 (amended): after every detection cycle on which no Signal fires,
the retained per-instrument history has at most 10 entries; on a cycle
where a Signal fires the pruning step is skipped, so the history grows
to exactly one more entry than before (it can briefly hold 11 entries,
pruned back on the next no-signal cycle).  Hypotheses as in C1: stored
keys are distinct timestamps of past candles. -/
theorem emaStatusCache_bound_spec (window : List Candle) (cache : EMAStatusCache)
    (cur : EMAStatus) (hcur : calculateEMAStatus window = some cur)
    (hnd : (cache.map Prod.fst).Nodup)
    (hold : ∀ k ∈ cache.map Prod.fst, k < cur.timestamp) :
    ((checkBullishSignal window cache).1 = none →
      (checkBullishSignal window cache).2.length ≤ 10) ∧
    ((checkBullishSignal window cache).1.isSome = true →
      (checkBullishSignal window cache).2.length = cache.length + 1) := by
  have hstep := checkBullishSignal_eq window cache cur hcur
  have hfresh : ∀ k ∈ cache.map Prod.fst, k ≠ cur.timestamp :=
    fun k hk => Nat.ne_of_lt (hold k hk)
  have hset : cacheSet cache cur.timestamp cur.bullish =
      cache ++ [(cur.timestamp, cur.bullish)] := cacheSet_fresh _ _ _ hfresh
  have hnd1 : ((cache ++ [(cur.timestamp, cur.bullish)]).map Prod.fst).Nodup := by
    rw [List.map_append, List.nodup_append]
    refine ⟨hnd, List.nodup_singleton _, ?_⟩
    intro k hk hk1
    simp only [List.map_cons, List.map_nil, List.mem_singleton] at hk1
    exact hfresh k hk hk1
  by_cases hc : cacheGet cache
      ((window.getD (window.length - 2) defaultCandle).timestamp) = some false ∧
      cur.bullish = true
  · rw [hstep, if_pos hc]
    constructor
    · intro hnone
      simp at hnone
    · intro _
      rw [hset, List.length_append]
      rfl
  · rw [hstep, if_neg hc]
    constructor
    · intro _
      rw [hset]
      exact cleanup_length_le _ hnd1
    · intro habs
      simp at habs

/-- Witness for the amended C6: a no-signal cycle on a full constant
window leaves at most 10 stored states. -/
theorem emaStatusCache_bound_spec_witness :
    (checkBullishSignal constWindow144 []).2.length ≤ 10 := by
  exact (emaStatusCache_bound_spec constWindow144 [] ⟨false, 1, 1, 1, 143, 1⟩
    (by decide) (by decide) (by decide)).1 (by decide)

/-- A raw candle row of the historical-candles API:
`[ts, o, h, l, c, vol, volUsd]`, with the decimal strings already read
as numbers (the JS `parseInt`/`parseFloat`). -/
structure RawCandle where
  ts : ℕ
  o : ℚ
  h : ℚ
  l : ℚ
  c : ℚ
  vol : ℚ
  volUsd : ℚ
deriving DecidableEq, Repr

/-- The per-row mapping inside `getKlineData`
(`bsc_active_tokens_analyzer.js:182-189`). -/
def parseCandle (r : RawCandle) : Candle :=
  ⟨r.ts, r.o, r.h, r.l, r.c, r.vol, r.volUsd⟩

/-- The normalization inside `getKlineData`
(`bsc_active_tokens_analyzer.js:182-190`): map rows to candles, then
`.reverse()` to chronological order. -/
def normalizeCandles (data : List RawCandle) : List Candle :=
  (data.map parseCandle).reverse

/-- `getKlineData` (`bsc_active_tokens_analyzer.js:148-202`) at its
interface: a thrown transport error (`Except.error`) or a response
without `code === '0' && data` (`Option.none`) yields `[]` (caught, not
propagated); a good response is normalized to chronological order. -/
def getKlineData (resp : Except Unit (Option (List RawCandle))) : List Candle :=
  match resp with
  | .error _ => []
  | .ok none => []
  | .ok (some data) => normalizeCandles data

lemma normalizeCandles_map_timestamp (data : List RawCandle) :
    (normalizeCandles data).map Candle.timestamp = (data.map RawCandle.ts).reverse := by
  rw [normalizeCandles, List.map_reverse, List.map_map]
  rfl

/-- C7: when the fetched rows arrive strictly reverse-chronological,
the candle list handed to the cache is strictly ascending in timestamp
(hence timestamps are unique), is a permutation of the parsed rows
(every candle's fields are preserved), and is exactly their reversal:
index `i` holds the parsed row `n - 1 - i`. -/
theorem getKlineData_normalization_spec (data : List RawCandle)
    (hdesc : (data.map RawCandle.ts).Pairwise (fun a b => b < a)) :
    ((normalizeCandles data).map Candle.timestamp).Pairwise (· < ·) ∧
    ((normalizeCandles data).map Candle.timestamp).Nodup ∧
    List.Perm (normalizeCandles data) (data.map parseCandle) ∧
    (normalizeCandles data).length = data.length ∧
    (∀ i, i < data.length →
      (normalizeCandles data).getD i defaultCandle =
        parseCandle (data.getD (data.length - 1 - i) ⟨0, 0, 0, 0, 0, 0, 0⟩)) := by
  have hasc : ((normalizeCandles data).map Candle.timestamp).Pairwise (· < ·) := by
    rw [normalizeCandles_map_timestamp, List.pairwise_reverse]
    exact hdesc
  refine ⟨hasc, hasc.imp (fun hab => Nat.ne_of_lt hab), ?_, ?_, ?_⟩
  · exact List.reverse_perm (data.map parseCandle)
  · rw [normalizeCandles, List.length_reverse, List.length_map]
  · intro i hi
    have hi' : i < (data.map parseCandle).reverse.length := by
      rw [List.length_reverse, List.length_map]; exact hi
    rw [normalizeCandles, List.getD_eq_getElem _ _ hi', List.getElem_reverse,
      List.getElem_map]
    have hlt : data.length - 1 - i < data.length := by omega
    simp only [List.length_map]
    rw [← List.getD_eq_getElem data ⟨0, 0, 0, 0, 0, 0, 0⟩ hlt]

/-- Witness for C7 on two reverse-chronological rows. -/
theorem getKlineData_normalization_spec_witness :
    ((normalizeCandles [⟨5, 1, 1, 1, 1, 0, 0⟩, ⟨3, 2, 2, 2, 2, 0, 0⟩]).map
      Candle.timestamp).Pairwise (· < ·) := by
  exact (getKlineData_normalization_spec
    [⟨5, 1, 1, 1, 1, 0, 0⟩, ⟨3, 2, 2, 2, 2, 0, 0⟩] (by decide)).1

/-- A token contract address. -/
abbrev Address := String

/-- The two mutable caches of the analyzer (`klineCache` and
`emaStatusCache`), viewed per instrument address. -/
structure AnalyzerState where
  klineCache : Address → Option (List Candle)
  emaStatusCache : Address → EMAStatusCache

/-- One instrument's step inside `runScheduledAnalysis`
(`bsc_active_tokens_analyzer.js:782-793`): fetch the latest candle
(`getKlineData`), run `updateTokenKlineCache`; when it reports no new
data (`null`), nothing changes and detection is skipped; otherwise
store the updated window and run `checkBullishSignal`, whose optional
signal goes to the notifier. -/
def processToken (resp : Except Unit (Option (List RawCandle))) (addr : Address)
    (st : AnalyzerState) : AnalyzerState × Option Signal :=
  match updateTokenKlineCache (getKlineData resp) ((st.klineCache addr).getD []) with
  | none => (st, none)
  | some updated =>
      let checked := checkBullishSignal updated (st.emaStatusCache addr)
      ({ klineCache := fun a => if a = addr then some updated else st.klineCache a,
         emaStatusCache := fun a => if a = addr then checked.2 else st.emaStatusCache a },
       checked.1)

/-- The per-cycle loop of `runScheduledAnalysis`
(`bsc_active_tokens_analyzer.js:779-800`): process every token of the
universe in order, sequentially threading the caches; `env` is the
network collaborator answering each instrument's fetch. -/
def runScheduledAnalysis (env : Address → Except Unit (Option (List RawCandle))) :
    List Address → AnalyzerState → AnalyzerState × List (Option Signal)
  | [], st => (st, [])
  | a :: rest, st =>
      ((runScheduledAnalysis env rest (processToken (env a) a st).1).1,
       (processToken (env a) a st).2 ::
         (runScheduledAnalysis env rest (processToken (env a) a st).1).2)

lemma runScheduledAnalysis_length (env : Address → Except Unit (Option (List RawCandle)))
    (addrs : List Address) (st : AnalyzerState) :
    (runScheduledAnalysis env addrs st).2.length = addrs.length := by
  induction addrs generalizing st with
  | nil => rfl
  | cons a rest ih => simp [runScheduledAnalysis, ih]

lemma runScheduledAnalysis_append (env : Address → Except Unit (Option (List RawCandle)))
    (l₁ l₂ : List Address) (st : AnalyzerState) :
    runScheduledAnalysis env (l₁ ++ l₂) st =
      ((runScheduledAnalysis env l₂ (runScheduledAnalysis env l₁ st).1).1,
       (runScheduledAnalysis env l₁ st).2 ++
         (runScheduledAnalysis env l₂ (runScheduledAnalysis env l₁ st).1).2) := by
  induction l₁ generalizing st with
  | nil => rfl
  | cons a rest ih =>
      simp only [List.cons_append, runScheduledAnalysis, List.append_eq, ih, List.cons_append]

/-- C8: per-instrument errors are contained: the fetch wrapper turns a
thrown error into `[]`, a failing instrument's step leaves the caches
untouched and yields no signal, and the cycle still visits every
instrument — one outcome per universe entry; with a failing instrument
anywhere in the universe, the outcome list is the outcomes before it,
then `none` for it, then the outcomes after it computed exactly as if
the failing instrument had been skipped (its failure aborts nothing). -/
theorem runScheduledAnalysis_error_containment
    (env : Address → Except Unit (Option (List RawCandle)))
    (addrs : List Address) (st : AnalyzerState) :
    (runScheduledAnalysis env addrs st).2.length = addrs.length ∧
    (∀ (addr : Address) (st' : AnalyzerState), env addr = Except.error () →
      processToken (env addr) addr st' = (st', none)) ∧
    (∀ pre a post, addrs = pre ++ a :: post → env a = Except.error () →
      (runScheduledAnalysis env addrs st).2 =
        (runScheduledAnalysis env pre st).2 ++
          none :: (runScheduledAnalysis env post
            (runScheduledAnalysis env pre st).1).2) := by
  refine ⟨runScheduledAnalysis_length env addrs st, ?_, ?_⟩
  · intro addr st' herr
    rw [herr]
    rfl
  · intro pre a post hsplit herr
    subst hsplit
    rw [runScheduledAnalysis_append]
    have hstep : processToken (env a) a (runScheduledAnalysis env pre st).1 =
        ((runScheduledAnalysis env pre st).1, none) := by
      rw [herr]
      rfl
    simp only [runScheduledAnalysis, hstep]

/-- The analyzer's start state: both caches empty. -/
def st0 : AnalyzerState := ⟨fun _ => none, fun _ => []⟩

/-- Witness for C8: a universe of two instruments whose fetches both
throw still yields one outcome per instrument, with the failing first
instrument contributing `none` and not aborting the rest. -/
theorem runScheduledAnalysis_error_containment_witness :
    (runScheduledAnalysis (fun _ => Except.error ()) ["a", "b"] st0).2.length = 2 ∧
    (runScheduledAnalysis (fun _ => Except.error ()) ["a", "b"] st0).2 =
      (runScheduledAnalysis (fun _ => Except.error ()) [] st0).2 ++
        none :: (runScheduledAnalysis (fun _ => Except.error ()) ["b"]
          (runScheduledAnalysis (fun _ => Except.error ()) [] st0).1).2 := by
  exact ⟨(runScheduledAnalysis_error_containment (fun _ => Except.error ()) ["a", "b"] st0).1,
    (runScheduledAnalysis_error_containment (fun _ => Except.error ()) ["a", "b"] st0).2.2
      [] "a" ["b"] rfl rfl⟩

/-- C10: on a cycle where an instrument obtains no new candle — the
fetch yields no candle, the instrument has no (or an empty) cached
window, or the fetched latest candle's timestamp is not strictly newer
than the cached newest — that instrument's step leaves the entire state
(its candle window and its alignment-state history) unchanged and emits
no signal; signal detection is never reached for it. -/
theorem processToken_frame_spec (resp : Except Unit (Option (List RawCandle)))
    (addr : Address) (st : AnalyzerState)
    (h : getKlineData resp = [] ∨ (st.klineCache addr).getD [] = [] ∨
      (∃ c rest, getKlineData resp = c :: rest ∧
        c.timestamp ≤ (((st.klineCache addr).getD []).getD
          (((st.klineCache addr).getD []).length - 1) defaultCandle).timestamp)) :
    processToken resp addr st = (st, none) := by
  have hupd : updateTokenKlineCache (getKlineData resp)
      ((st.klineCache addr).getD []) = none := by
    rcases h with h1 | h2 | ⟨c, rest, hc, hle⟩
    · rw [h1]
      rfl
    · rw [h2]
      cases hkl : getKlineData resp with
      | nil => rfl
      | cons c rest => rfl
    · rw [hc]
      simp only [updateTokenKlineCache]
      by_cases hemp : ((st.klineCache addr).getD []).length = 0
      · rw [if_pos hemp]
      · rw [if_neg hemp, if_pos hle]
  simp only [processToken, hupd]

/-- Witness for C10: a failing fetch against the empty start state is a
pure no-op. -/
theorem processToken_frame_spec_witness :
    processToken (Except.error ()) "a" st0 = (st0, none) := by
  exact processToken_frame_spec (Except.error ()) "a" st0 (Or.inl rfl)
